import Mathlib

/-!
Verification of the compression codec abstraction of the awskinesisexporter
(`exporter/awskinesisexporter/internal/compress`).

Bytes are modelled as `Nat` list elements.  An `io.Writer` destination is
modelled as an index into a `World` of growable in-memory buffers; Go's `nil`
interface value is `Option.none`.  A Go method that panics is modelled by a
dedicated result constructor, since a panic is an outcome distinct from any
returned error.
-/

/-- A destination world: buffer `i` models one in-memory `io.Writer`. -/
abbrev World : Type := List (List Nat)

/-- Result of a `Write` call: either `(n, err)` together with the updated
world of destination buffers, or a runtime panic. -/
inductive WriteResult where
  | ok (n : Nat) (err : Option String) (world : World)
  | panics (msg : String)
deriving DecidableEq

/-- Result of a `Close` call: a returned error value or a runtime panic. -/
inductive CloseResult where
  | ok (err : Option String)
  | panics (msg : String)
deriving DecidableEq

/-- The `noop` codec of the source: `type noop struct { data io.Writer }`.
`data = none` models the zero value's nil writer. -/
structure noop where
  data : Option Nat
deriving DecidableEq

/-- Source `func (n *noop) Close() error { panic("implement me") }`:
unconditional panic, whatever the binding state. -/
def noop.Close (_ : noop) : CloseResult :=
  .panics "implement me"

/-- Source `func NewNoopCompressor() Compressor { return &compressor{compression: &noop{}} }`.
The `compressor` wrapper type is outside the sources; we model the codec it
wraps, the zero-valued `&noop{}` whose `data` field is the nil writer. -/
def NewNoopCompressor : noop :=
  ⟨none⟩

/-- Source `func (n *noop) Reset(w io.Writer) { n.data = w }`: rebinds the
codec to `w`; `data` is the only field, so nothing else is carried over. -/
def noop.Reset (_ : noop) (w : Nat) : noop :=
  ⟨some w⟩

/-- Source `func (n noop) Write(p []byte) (int, error) { return n.data.Write(p) }`:
forwards `p` to the bound destination and returns the destination's write
result (an in-memory buffer write returns `(len p, nil)`); calling through a
nil `io.Writer` interface panics. -/
def noop.Write (n : noop) (world : World) (p : List Nat) : WriteResult :=
  match n.data with
  | none => .panics "runtime error: invalid memory address or nil pointer dereference"
  | some i => .ok p.length none (world.set i (world.getD i [] ++ p))

/-- Source `func (n noop) Flush() error { return nil }`. -/
def noop.Flush (_ : noop) : Option String :=
  none

/-! ### Deflate-family streams

The factory and the gzip/zlib/flate codecs of the `compress` package are not
among the sources (only their tests and the noop codec are), so they are
modelled from the spec.  The spec requires the output bytes for gzip, zlib and
flate to be valid, standard-conformant compressed streams decodable by any
standard decoder; the model emits standard-conformant streams built from
stored (uncompressed) DEFLATE blocks, together with standard-conformant
decoders used to state the round-trip properties. -/

/-- Two-byte little-endian encoding of a 16-bit value. -/
def le16 (n : Nat) : List Nat :=
  [n % 256, n / 256 % 256]

/-- Four-byte little-endian encoding of a 32-bit value. -/
def le32 (n : Nat) : List Nat :=
  [n % 256, n / 256 % 256, n / 65536 % 256, n / 16777216 % 256]

/-- Four-byte big-endian encoding of a 32-bit value. -/
def be32 (n : Nat) : List Nat :=
  [n / 16777216 % 256, n / 65536 % 256, n / 256 % 256, n % 256]

/-- One stored (BTYPE=00) DEFLATE block: BFINAL byte, LEN, NLEN = one's
complement of LEN, then the raw bytes.  Stored blocks are byte-aligned here
because the three header bits fit the low bits of the first byte. -/
def storedBlock (final : Bool) (d : List Nat) : List Nat :=
  (if final then 1 else 0) :: (le16 d.length ++ (le16 (65535 - d.length) ++ d))

/-- Fuel-indexed body of the stored-block DEFLATE encoder: emit chunks of at
most 65535 bytes, the last one marked final. -/
def deflateGo : Nat → List Nat → List Nat
  | 0, d => storedBlock true d
  | fuel + 1, d =>
    if d.length ≤ 65535 then storedBlock true d
    else storedBlock false (d.take 65535) ++ deflateGo fuel (d.drop 65535)

/-- Modelled from the spec: a standard-conformant raw DEFLATE stream for
payload `d`, using stored blocks.  `d.length` steps of fuel always suffice. -/
def deflateStored (d : List Nat) : List Nat :=
  deflateGo d.length d

/-- Read a 16-bit little-endian value from two bytes. -/
def rd16 (l0 l1 : Nat) : Nat :=
  l0 + 256 * l1

/-- Fuel-indexed stored-block DEFLATE decoder: parses blocks until a final
one, returning the payload and the unconsumed remainder of the stream. -/
def inflateGo (g : Nat) (s : List Nat) : Option (List Nat × List Nat) :=
  match s with
  | b :: l0 :: l1 :: n0 :: n1 :: rest =>
    if rd16 n0 n1 = 65535 - rd16 l0 l1 ∧ rd16 l0 l1 ≤ rest.length then
      if b = 1 then some (rest.take (rd16 l0 l1), rest.drop (rd16 l0 l1))
      else if b = 0 then
        match g with
        | 0 => none
        | g' + 1 =>
          match inflateGo g' (rest.drop (rd16 l0 l1)) with
          | some pr => some (rest.take (rd16 l0 l1) ++ pr.1, pr.2)
          | none => none
      else none
    else none
  | _ => none

/-- A standard stored-block DEFLATE decoder; the stream length bounds the
number of blocks, so it is enough fuel. -/
def inflateStored (s : List Nat) : Option (List Nat × List Nat) :=
  inflateGo s.length s

/-- One round of the reflected CRC-32 (IEEE polynomial 0xEDB88320). -/
def crcRound (c : Nat) : Nat :=
  if c % 2 = 1 then Nat.xor (c / 2) 0xEDB88320 else c / 2

/-- Fold one byte into a CRC-32 accumulator. -/
def crc32Update (c b : Nat) : Nat :=
  crcRound^[8] (Nat.xor c (b % 256))

/-- The CRC-32 (IEEE) checksum of a byte sequence, as written in a gzip
trailer. -/
def crc32 (d : List Nat) : Nat :=
  Nat.xor (d.foldl crc32Update 0xFFFFFFFF) 0xFFFFFFFF

/-- The Adler-32 checksum of a byte sequence, as written in a zlib trailer. -/
def adler32 (d : List Nat) : Nat :=
  let p := d.foldl (fun st b => ((st.1 + b % 256) % 65521, (st.2 + (st.1 + b % 256)) % 65521)) (1, 0)
  p.2 * 65536 + p.1

/-- The ten-byte gzip member header: magic 1f 8b, CM=8 (deflate), FLG=0,
MTIME=0, XFL=0, OS=255 (unknown). -/
def gzipHeader : List Nat :=
  [31, 139, 8, 0, 0, 0, 0, 0, 0, 255]

/-- Modelled from the spec: the byte stream the gzip codec produces for input
`d` — a standard-conformant gzip member (header, DEFLATE data, CRC-32 and
ISIZE trailer). -/
def gzipEncode (d : List Nat) : List Nat :=
  gzipHeader ++ (deflateStored d ++ (le32 (crc32 d) ++ le32 (d.length % 4294967296)))

/-- A standard gzip decoder for such streams: checks the magic, CM and FLG
header fields, inflates, and verifies the CRC-32/ISIZE trailer. -/
def gzipDecode (s : List Nat) : Option (List Nat) :=
  match s with
  | 31 :: 139 :: 8 :: 0 :: _ :: _ :: _ :: _ :: _ :: _ :: rest =>
    match inflateStored rest with
    | some pr =>
      if pr.2 = le32 (crc32 pr.1) ++ le32 (pr.1.length % 4294967296) then some pr.1
      else none
    | none => none
  | _ => none

/-- Modelled from the spec: the byte stream the zlib codec produces for input
`d` — CMF/FLG header (78 01: CM=8, valid check bits, no preset dictionary),
DEFLATE data, Adler-32 trailer. -/
def zlibEncode (d : List Nat) : List Nat :=
  120 :: 1 :: (deflateStored d ++ be32 (adler32 d))

/-- A standard zlib decoder: checks CM=8, the FCHECK divisibility-by-31
condition and that FDICT is clear, inflates, and verifies the Adler-32. -/
def zlibDecode (s : List Nat) : Option (List Nat) :=
  match s with
  | cmf :: flg :: rest =>
    if cmf % 16 = 8 ∧ (cmf * 256 + flg) % 31 = 0 ∧ flg / 32 % 2 = 0 then
      match inflateStored rest with
      | some pr => if pr.2 = be32 (adler32 pr.1) then some pr.1 else none
      | none => none
    else none
  | _ => none

/-- Modelled from the spec: the byte stream the flate codec produces for
input `d` — a bare standard-conformant DEFLATE stream. -/
def flateEncode (d : List Nat) : List Nat :=
  deflateStored d

/-- A standard raw-DEFLATE decoder: inflates and requires the stream to end
at the final block. -/
def flateDecode (s : List Nat) : Option (List Nat) :=
  match inflateStored s with
  | some pr => if pr.2 = [] then some pr.1 else none
  | none => none

/-! ### Compression operation and factory (modelled from the spec) -/

/-- Modelled from the spec: the uniform codec capability seen by a single
compression call.  A fresh codec instance accumulates the written bytes in a
pending buffer; `close` finalizes them into the output stream.  Both steps
may surface an I/O error. -/
structure Codec where
  write : List Nat → List Nat → Except String (List Nat)
  close : List Nat → Except String (List Nat)

/-- Modelled from the spec (§4.3): one compression call — allocate a fresh
destination, construct a fresh codec bound to it, write the entire input,
close to finalize, and return the destination's contents; a write or close
failure aborts the call and surfaces the underlying error. -/
def compressOnce (c : Codec) (input : List Nat) : Except String (List Nat) :=
  match c.write input [] with
  | .error e => .error e
  | .ok buf =>
    match c.close buf with
    | .error e => .error e
    | .ok out => .ok out

/-- A heap of per-call destination buffers, for stating call independence. -/
abbrev Heap : Type := List (List Nat)

/-- Modelled from the spec (§4.3/§5): the same compression call running
against an explicit heap of destination buffers.  The call allocates a fresh
buffer at a fresh address, writes and closes only through that address, and
reads its own buffer back out. -/
def compressInHeap (c : Codec) (input : List Nat) (h : Heap) :
    Except String (List Nat) × Heap :=
  let addr := h.length
  let h1 := h ++ [[]]
  match c.write input (h1.getD addr []) with
  | .error e => (.error e, h1)
  | .ok buf =>
    let h2 := h1.set addr buf
    match c.close (h2.getD addr []) with
    | .error e => (.error e, h2)
    | .ok out => (.ok out, h2.set addr out)

/-- Modelled from the spec: the codec behind the `none`/`noop` formats — the
operation passes the bytes through unchanged (its `close` adds no trailer and
is a successful no-op, per §4.1 and §8). -/
def noopOpCodec : Codec :=
  ⟨fun p pending => .ok (pending ++ p), fun pending => .ok pending⟩

/-- Modelled from the spec: the gzip codec — `close` finalizes the pending
bytes into a standard-conformant gzip stream. -/
def gzipCodec : Codec :=
  ⟨fun p pending => .ok (pending ++ p), fun pending => .ok (gzipEncode pending)⟩

/-- Modelled from the spec: the zlib codec. -/
def zlibCodec : Codec :=
  ⟨fun p pending => .ok (pending ++ p), fun pending => .ok (zlibEncode pending)⟩

/-- Modelled from the spec: the flate codec. -/
def flateCodec : Codec :=
  ⟨fun p pending => .ok (pending ++ p), fun pending => .ok (flateEncode pending)⟩

/-- A codec whose underlying destination write fails, exercising the
error-propagation path of a compression call. -/
def failWriteCodec : Codec :=
  ⟨fun _ _ => .error "simulated io failure", fun pending => .ok pending⟩

/-- A codec whose `close` finalization fails. -/
def failCloseCodec : Codec :=
  ⟨fun p pending => .ok (pending ++ p), fun _ => .error "simulated close failure"⟩

/-- Modelled from the spec (§4.2): `NewCompressor` maps a format identifier
to a ready-to-use compression operation, accepting exactly the closed set
none, noop, gzip, zlib, flate and rejecting anything else with an error at
construction time. -/
def NewCompressor (format : String) :
    Except String (List Nat → Except String (List Nat)) :=
  if format = "none" then .ok (compressOnce noopOpCodec)
  else if format = "noop" then .ok (compressOnce noopOpCodec)
  else if format = "gzip" then .ok (compressOnce gzipCodec)
  else if format = "zlib" then .ok (compressOnce zlibCodec)
  else if format = "flate" then .ok (compressOnce flateCodec)
  else .error ("unknown compression format " ++ format)

/-! ### List access helper lemmas -/

theorem getD_set_self {α : Type} (l : List α) (i : Nat) (x d : α)
    (h : i < l.length) : (l.set i x).getD i d = x := by
  induction l generalizing i with
  | nil => simp at h
  | cons a t ih =>
    cases i with
    | zero => rfl
    | succ j =>
      simp only [List.set, List.getD, List.getElem?_cons_succ]
      have hj : j < t.length := by simpa using h
      simpa [List.getD] using ih j hj

theorem getD_set_ne {α : Type} (l : List α) (i j : Nat) (x d : α)
    (h : j ≠ i) : (l.set i x).getD j d = l.getD j d := by
  induction l generalizing i j with
  | nil => simp [List.set]
  | cons a t ih =>
    cases i with
    | zero =>
      cases j with
      | zero => exact absurd rfl h
      | succ k => simp [List.set, List.getD]
    | succ i' =>
      cases j with
      | zero => simp [List.set, List.getD]
      | succ k =>
        simp only [List.set, List.getD, List.getElem?_cons_succ]
        have hk : k ≠ i' := fun he => h (by simp [he])
        simpa [List.getD] using ih i' k hk

theorem getD_append_left {α : Type} (l l' : List α) (j : Nat) (d : α)
    (h : j < l.length) : (l ++ l').getD j d = l.getD j d := by
  induction l generalizing j with
  | nil => simp at h
  | cons a t ih =>
    cases j with
    | zero => rfl
    | succ k =>
      have hk : k < t.length := by simpa using h
      simp [List.getD] at ih ⊢
      exact ih k hk

theorem getD_append_length {α : Type} (l : List α) (x d : α) :
    (l ++ [x]).getD l.length d = x := by
  induction l with
  | nil => rfl
  | cons a t ih => simpa [List.getD] using ih

theorem take_append_self {α : Type} (a b : List α) : (a ++ b).take a.length = a := by
  induction a with
  | nil => rfl
  | cons x t ih => simpa using ih

theorem drop_append_self {α : Type} (a b : List α) : (a ++ b).drop a.length = b := by
  induction a with
  | nil => rfl
  | cons x t ih => simpa using ih

theorem take_eq_len_append {α : Type} (n : Nat) (a b : List α) (h : a.length = n) :
    (a ++ b).take n = a := by
  subst h
  exact take_append_self a b

theorem drop_eq_len_append {α : Type} (n : Nat) (a b : List α) (h : a.length = n) :
    (a ++ b).drop n = b := by
  subst h
  exact drop_append_self a b

/-! ### Theorems about the noop codec (claims on code under `src/`) -/

/-- Claim C1: for every binding state of the no-op codec, `Close` signals a
fatal invariant violation (a panic); in particular so on the unbound sentinel
form `⟨none⟩`, before any destination has been set via `Reset`. -/
theorem noop_close_always_panics :
    (∀ n : noop, n.Close = CloseResult.panics "implement me") ∧
    noop.Close ⟨none⟩ = CloseResult.panics "implement me" :=
  ⟨fun _ => rfl, rfl⟩

/-- Claim C7: after `Reset w` the no-op codec is bound to `w`, with no state
carried over from any previous binding (the result does not depend on the
prior codec value), and a subsequent `Write p` appends `p` to destination `w`
while leaving every other destination's buffer unchanged. -/
theorem noop_reset_rebinds (n n' : noop) (w : Nat) (world : World) (p : List Nat)
    (hw : w < world.length) :
    (n.Reset w).data = some w ∧
    n.Reset w = n'.Reset w ∧
    (n.Reset w).Write world p = .ok p.length none (world.set w (world.getD w [] ++ p)) ∧
    (world.set w (world.getD w [] ++ p)).getD w [] = world.getD w [] ++ p ∧
    ∀ j, j ≠ w → (world.set w (world.getD w [] ++ p)).getD j [] = world.getD j [] :=
  ⟨rfl, rfl, rfl, getD_set_self world w _ [] hw,
    fun j hj => getD_set_ne world w j _ [] hj⟩

/-- Witness for C7 at a concrete instance. -/
theorem noop_reset_rebinds_witness :
    ((noop.Reset ⟨none⟩ 0).Write [[7], [9]] [1, 2] =
      .ok 2 none [[7, 1, 2], [9]]) ∧
    ([[7, 1, 2], [9]] : World).getD 1 [] = [9] := by
  have h := noop_reset_rebinds ⟨none⟩ ⟨some 5⟩ 0 [[7], [9]] [1, 2] (by decide)
  exact ⟨h.2.2.1, h.2.2.2.2 1 (by decide)⟩

/-- Claim C8: with a bound destination, the no-op codec's `Write p` forwards
`p` unchanged to the destination, returning the destination's write result
`(p.length, nil)`, and `Flush` succeeds returning no error (it takes no
destination state, so it changes nothing). -/
theorem noop_write_forwards (n : noop) (i : Nat) (world : World) (p : List Nat)
    (hdata : n.data = some i) (hi : i < world.length) :
    n.Write world p = .ok p.length none (world.set i (world.getD i [] ++ p)) ∧
    (world.set i (world.getD i [] ++ p)).getD i [] = world.getD i [] ++ p ∧
    n.Flush = none := by
  refine ⟨?_, getD_set_self world i _ [] hi, rfl⟩
  simp [noop.Write, hdata]

/-- Witness for C8 at a concrete instance. -/
theorem noop_write_forwards_witness :
    noop.Write ⟨some 0⟩ [[3]] [4, 5] = .ok 2 none [[3, 4, 5]] ∧
    noop.Flush ⟨some 0⟩ = none := by
  have h := noop_write_forwards ⟨some 0⟩ 0 [[3]] [4, 5] rfl (by decide)
  exact ⟨h.1, h.2.2⟩

/-- Claim C10: the codec built by `NewNoopCompressor` starts unbound
(`data = none`), and `Write` before any `Reset` dereferences the nil
destination and panics — a crash condition beyond the documented
close-before-binding case. -/
theorem newNoopCompressor_unbound_write_panics :
    NewNoopCompressor.data = none ∧
    ∀ (world : World) (p : List Nat),
      NewNoopCompressor.Write world p =
        .panics "runtime error: invalid memory address or nil pointer dereference" :=
  ⟨rfl, fun _ _ => rfl⟩

/-! ### Stored-block DEFLATE round trip -/

theorem inflate_final (g : Nat) (d extra : List Nat) (hd : d.length ≤ 65535) :
    inflateGo g (storedBlock true d ++ extra) = some (d, extra) := by
  have h1 : d.length % 256 + 256 * (d.length / 256 % 256) = d.length := by omega
  have h2 : (65535 - d.length) % 256 + 256 * ((65535 - d.length) / 256 % 256) =
      65535 - d.length := by omega
  simp only [storedBlock, le16, if_true, List.cons_append, List.append_assoc,
    List.nil_append, List.append_nil]
  rw [inflateGo.eq_def]
  simp only [rd16, h1, h2]
  rw [take_append_self, drop_append_self]
  simp

theorem deflateGo_length (f : Nat) : ∀ d : List Nat, d.length + 5 ≤ (deflateGo f d).length := by
  induction f with
  | zero =>
    intro d
    simp [deflateGo, storedBlock, le16]
  | succ f ih =>
    intro d
    by_cases hle : d.length ≤ 65535
    · simp [deflateGo, hle, storedBlock, le16]
    · have hrec := ih (d.drop 65535)
      simp only [deflateGo, if_neg hle, storedBlock, le16, List.length_append,
        List.length_cons, List.length_take, List.length_drop] at hrec ⊢
      omega

theorem inflateGo_deflateGo (f : Nat) :
    ∀ g d extra, d.length ≤ 65535 * (f + 1) → f + 1 ≤ g →
      inflateGo g (deflateGo f d ++ extra) = some (d, extra) := by
  induction f with
  | zero =>
    intro g d extra hlen _
    have := inflate_final g d extra (by omega)
    simpa [deflateGo] using this
  | succ f ih =>
    intro g d extra hlen hg
    by_cases hle : d.length ≤ 65535
    · have := inflate_final g d extra hle
      simpa [deflateGo, hle] using this
    · obtain ⟨g', rfl⟩ : ∃ g', g = g' + 1 := ⟨g - 1, by omega⟩
      have htake : (d.take 65535).length = 65535 := by
        simp only [List.length_take]
        omega
      have hdrop : (d.drop 65535).length ≤ 65535 * (f + 1) := by
        simp only [List.length_drop]
        omega
      have hrec := ih g' (d.drop 65535) extra hdrop (by omega)
      have hT := take_eq_len_append 65535 (d.take 65535)
        (deflateGo f (d.drop 65535) ++ extra) htake
      have hD := drop_eq_len_append 65535 (d.take 65535)
        (deflateGo f (d.drop 65535) ++ extra) htake
      simp only [deflateGo, if_neg hle, List.append_assoc]
      simp only [storedBlock, le16, htake, List.cons_append, List.append_assoc]
      rw [inflateGo.eq_def]
      simp only [rd16]
      norm_num
      rw [hT, hD, hrec]
      exact ⟨by omega, by simp [List.take_append_drop]⟩

theorem inflateStored_deflateStored (d extra : List Nat) :
    inflateStored (deflateStored d ++ extra) = some (d, extra) := by
  have hlb := deflateGo_length d.length d
  have hlen : d.length + 1 ≤ (deflateStored d ++ extra).length := by
    simp only [deflateStored, List.length_append]
    omega
  exact inflateGo_deflateGo d.length ((deflateStored d ++ extra).length) d extra
    (by omega) (by simpa [deflateStored] using hlen)

theorem gzipDecode_gzipEncode (d : List Nat) : gzipDecode (gzipEncode d) = some d := by
  have h := inflateStored_deflateStored d (le32 (crc32 d) ++ le32 (d.length % 4294967296))
  simp only [gzipEncode, gzipHeader, List.cons_append, List.nil_append]
  rw [gzipDecode.eq_def]
  simp only [h]
  simp

theorem zlibDecode_zlibEncode (d : List Nat) : zlibDecode (zlibEncode d) = some d := by
  have h := inflateStored_deflateStored d (be32 (adler32 d))
  simp only [zlibEncode]
  rw [zlibDecode.eq_def]
  norm_num
  simp only [h]
  simp

theorem flateDecode_flateEncode (d : List Nat) : flateDecode (flateEncode d) = some d := by
  have h := inflateStored_deflateStored d []
  rw [List.append_nil] at h
  simp only [flateDecode, flateEncode, h]
  simp

theorem deflateGo_ne_nil (f : Nat) (d : List Nat) : deflateGo f d ≠ [] := by
  cases f with
  | zero => simp [deflateGo, storedBlock]
  | succ f =>
    simp only [deflateGo]
    split
    · simp [storedBlock]
    · simp [storedBlock]

/-! ### Call-independence lemmas for the heap-threaded operation -/

theorem compressInHeap_fst (c : Codec) (input : List Nat) (h : Heap) :
    (compressInHeap c input h).1 = compressOnce c input := by
  have hfresh : (h ++ [[]]).getD h.length [] = ([] : List Nat) :=
    getD_append_length h [] []
  simp only [compressInHeap, compressOnce, hfresh]
  cases hw : c.write input [] with
  | error e => rfl
  | ok buf =>
    have hbuf : ((h ++ [[]]).set h.length buf).getD h.length [] = buf :=
      getD_set_self (h ++ [[]]) h.length buf [] (by simp)
    simp only [hbuf]
    cases hc : c.close buf with
    | error e => rfl
    | ok out => rfl

theorem compressInHeap_preserves (c : Codec) (input : List Nat) (h : Heap)
    (j : Nat) (hj : j < h.length) :
    ((compressInHeap c input h).2).getD j [] = h.getD j [] := by
  have hne : j ≠ h.length := by omega
  have h1 : (h ++ [[]]).getD j [] = h.getD j [] := getD_append_left h [[]] j [] hj
  have hfresh : (h ++ [[]]).getD h.length [] = ([] : List Nat) :=
    getD_append_length h [] []
  simp only [compressInHeap, hfresh]
  cases hw : c.write input [] with
  | error e => exact h1
  | ok buf =>
    have hbuf : ((h ++ [[]]).set h.length buf).getD h.length [] = buf :=
      getD_set_self (h ++ [[]]) h.length buf [] (by simp)
    have h2 : ((h ++ [[]]).set h.length buf).getD j [] = h.getD j [] := by
      rw [getD_set_ne (h ++ [[]]) h.length j buf [] hne]
      exact h1
    simp only [hbuf]
    cases hc : c.close buf with
    | error e => exact h2
    | ok out =>
      simp only []
      rw [getD_set_ne _ h.length j out [] hne]
      exact h2

/-! ### Claims about the factory and the compression operation -/

/-- Claim C2: every format string outside the closed set none, noop, gzip,
zlib, flate is rejected by `NewCompressor` with an error at factory
construction time, so no operation exists to fail later at call time. -/
theorem invalid_format_rejected (format : String)
    (h : format ∉ ["none", "noop", "gzip", "zlib", "flate"]) :
    NewCompressor format = .error ("unknown compression format " ++ format) := by
  simp only [List.mem_cons, List.not_mem_nil, or_false, not_or] at h
  obtain ⟨h1, h2, h3, h4, h5⟩ := h
  simp [NewCompressor, h1, h2, h3, h4, h5]

/-- Witness for C2 at a concrete invalid format. -/
theorem invalid_format_rejected_witness :
    NewCompressor "invalid-format" =
      .error ("unknown compression format " ++ "invalid-format") :=
  invalid_format_rejected "invalid-format" (by decide)

/-- Claim C3: a compression call is deterministic in its own input and
independent of all other calls: run against any heap of other calls'
buffers, its result equals the pure result of its input alone (hence two
calls on equal inputs agree, whatever state surrounds them), and it leaves
every previously existing buffer untouched. -/
theorem compress_call_independent (c : Codec) (input : List Nat) (h h' : Heap) :
    (compressInHeap c input h).1 = compressOnce c input ∧
    (compressInHeap c input h).1 = (compressInHeap c input h').1 ∧
    ∀ j, j < h.length → ((compressInHeap c input h).2).getD j [] = h.getD j [] :=
  ⟨compressInHeap_fst c input h,
    (compressInHeap_fst c input h).trans (compressInHeap_fst c input h').symm,
    fun j hj => compressInHeap_preserves c input h j hj⟩

/-- Witness for C3 at a concrete codec, input and heap. -/
theorem compress_call_independent_witness :
    (compressInHeap noopOpCodec [1, 2] [[9]]).1 = compressOnce noopOpCodec [1, 2] ∧
    ((compressInHeap noopOpCodec [1, 2] [[9]]).2).getD 0 [] = [9] := by
  have h := compress_call_independent noopOpCodec [1, 2] [[9]] []
  exact ⟨h.1, h.2.2 0 (by decide)⟩

/-- Claim C4: the operation `NewCompressor "gzip"` returns round-trips — for
every input, standard gzip decompression of its successful output is exactly
the original input. -/
theorem gzip_operation_roundtrip (d : List Nat) :
    ∃ f, NewCompressor "gzip" = .ok f ∧
      ∃ out, f d = .ok out ∧ gzipDecode out = some d := by
  refine ⟨compressOnce gzipCodec, by simp [NewCompressor], gzipEncode d, rfl,
    gzipDecode_gzipEncode d⟩

/-- Claim C5: for each of the five recognized formats `NewCompressor`
succeeds, and the returned operation maps every non-empty input to a
non-error result with non-empty output. -/
theorem recognized_formats_compress (format : String)
    (h : format ∈ ["none", "noop", "gzip", "zlib", "flate"]) :
    ∃ f, NewCompressor format = .ok f ∧
      ∀ d : List Nat, d ≠ [] → ∃ out, f d = .ok out ∧ out ≠ [] := by
  simp only [List.mem_cons, List.not_mem_nil, or_false] at h
  rcases h with rfl | rfl | rfl | rfl | rfl
  · exact ⟨compressOnce noopOpCodec, by simp [NewCompressor],
      fun d hd => ⟨d, rfl, hd⟩⟩
  · exact ⟨compressOnce noopOpCodec, by simp [NewCompressor],
      fun d hd => ⟨d, rfl, hd⟩⟩
  · exact ⟨compressOnce gzipCodec, by simp [NewCompressor],
      fun d _ => ⟨gzipEncode d, rfl, by simp [gzipEncode, gzipHeader]⟩⟩
  · exact ⟨compressOnce zlibCodec, by simp [NewCompressor],
      fun d _ => ⟨zlibEncode d, rfl, by simp [zlibEncode]⟩⟩
  · exact ⟨compressOnce flateCodec, by simp [NewCompressor],
      fun d _ => ⟨flateEncode d, rfl, by simp [flateEncode, deflateStored, deflateGo_ne_nil]⟩⟩

/-- Witness for C5 at a concrete format and input. -/
theorem recognized_formats_compress_witness :
    ∃ f, NewCompressor "gzip" = .ok f ∧ ∃ out, f [1] = .ok out ∧ out ≠ [] := by
  obtain ⟨f, hf, hall⟩ := recognized_formats_compress "gzip" (by decide)
  obtain ⟨out, h1, h2⟩ := hall [1] (by decide)
  exact ⟨f, hf, out, h1, h2⟩

/-- Claim C6: error and output of a compression call are mutually exclusive
outcomes — a write or close failure aborts the call and surfaces the
underlying I/O error rather than returning partial output, and a successful
result can only arise when both the write and the finalizing close
succeeded. -/
theorem compress_error_exclusive (c : Codec) (input : List Nat) :
    (∀ e, c.write input [] = .error e → compressOnce c input = .error e) ∧
    (∀ buf e, c.write input [] = .ok buf → c.close buf = .error e →
      compressOnce c input = .error e) ∧
    (∀ out, compressOnce c input = .ok out →
      ∃ buf, c.write input [] = .ok buf ∧ c.close buf = .ok out) := by
  refine ⟨fun e he => by simp [compressOnce, he],
    fun buf e hw hc => by simp [compressOnce, hw, hc], fun out hout => ?_⟩
  simp only [compressOnce] at hout
  cases hw : c.write input [] with
  | error e => simp [hw] at hout
  | ok buf =>
    simp only [hw] at hout
    cases hc : c.close buf with
    | error e => simp [hc] at hout
    | ok o =>
      simp only [hc] at hout
      cases hout
      exact ⟨buf, rfl, hc⟩

/-- Witness for C6: a failing destination write surfaces its error. -/
theorem compress_error_exclusive_witness :
    compressOnce failWriteCodec [1, 2] = .error "simulated io failure" :=
  (compress_error_exclusive failWriteCodec [1, 2]).1 "simulated io failure" rfl

/-- Claim C9: compressing the empty input succeeds for every recognized
format; for gzip, zlib and flate the output is a standard-decodable
empty-payload stream, and for none and noop it is the identical zero-length
output. -/
theorem compress_empty_succeeds (format : String)
    (h : format ∈ ["none", "noop", "gzip", "zlib", "flate"]) :
    ∃ f out, NewCompressor format = .ok f ∧ f [] = .ok out ∧
      (format = "gzip" → gzipDecode out = some []) ∧
      (format = "zlib" → zlibDecode out = some []) ∧
      (format = "flate" → flateDecode out = some []) ∧
      ((format = "none" ∨ format = "noop") → out = []) := by
  simp only [List.mem_cons, List.not_mem_nil, or_false] at h
  rcases h with rfl | rfl | rfl | rfl | rfl
  · exact ⟨compressOnce noopOpCodec, [], by simp [NewCompressor], rfl,
      by simp, by simp, by simp, fun _ => rfl⟩
  · exact ⟨compressOnce noopOpCodec, [], by simp [NewCompressor], rfl,
      by simp, by simp, by simp, fun _ => rfl⟩
  · exact ⟨compressOnce gzipCodec, gzipEncode [], by simp [NewCompressor], rfl,
      fun _ => gzipDecode_gzipEncode [], by simp, by simp, by simp⟩
  · exact ⟨compressOnce zlibCodec, zlibEncode [], by simp [NewCompressor], rfl,
      by simp, fun _ => zlibDecode_zlibEncode [], by simp, by simp⟩
  · exact ⟨compressOnce flateCodec, flateEncode [], by simp [NewCompressor], rfl,
      by simp, by simp, fun _ => flateDecode_flateEncode [], by simp⟩

/-- Witness for C9 at the gzip format. -/
theorem compress_empty_succeeds_witness :
    ∃ f out, NewCompressor "gzip" = .ok f ∧ f [] = .ok out ∧
      gzipDecode out = some [] := by
  obtain ⟨f, out, h1, h2, h3, _⟩ := compress_empty_succeeds "gzip" (by decide)
  exact ⟨f, out, h1, h2, h3 rfl⟩
